import Mathlib

/-!
Verification of the palette manager (`src/manager/palette.rs`) of the sbrx
ROM-hacking tool, against its natural-language specification.

The manager (`PaletteManager`) holds a shared handle to the ROM file, an
in-memory map from character name to a palette (a `Vec<i32>` of packed
GBA color words), and performs 32-byte block reads/writes at each
character's `palette_offset`.

Modelling conventions:
  * Machine integers: the stored words are Rust `i32`, modelled as `Int`;
    ROM bytes (`u8`) are modelled as `Nat` (values `< 256` wherever they
    come from a real byte source).
  * The ROM file (`std::fs::File` behind `Arc<Mutex<File>>`) is modelled
    as a byte list plus a cursor (`MFile`); the manager's operations are
    parameterised over an abstract `FileOps` interface so that OS-level
    I/O failures (which `?` propagates) can be represented.  `mfileOps`
    gives the regular-file semantics of the std library: `seek` to any
    offset succeeds (also past EOF), `read` returns up to `n` bytes and
    returns fewer (or zero) bytes at EOF *without* an error, `write`
    overwrites at the cursor and extends the file when needed.
  * A Rust panic (`Option::unwrap` on a missing palette) is modelled by
    the `Outcome.panicked` constructor; `Result::Err` by `Outcome.ioError`.
  * Mutex-poisoning panics (`lock().unwrap()`) are not modelled; the lock
    acquisition pattern itself is modelled separately as an event trace
    (`LockEvent`) for the locking claims.
-/

namespace Sbrx

/-- Modelled from the spec: the Color Codec (`GBAColorCache` of the `color`
module) is not under `src/`.  Per the spec, an RGB color has three 8-bit-range
channel components. -/
structure Color where
  r : Nat
  g : Nat
  b : Nat
  deriving DecidableEq

/-- Modelled from the spec: `decode` (`gba_to_rgb`) extracts the three 5-bit
channel fields of a packed word (bits 0-4, 5-9, 10-14; bit 15 reserved and
ignored) and upscales each field to the 8-bit range by the inverse of the
depth reduction (scaling by `2^3`). -/
def gba_to_rgb (w : Nat) : Color :=
  { r := (w % 32) * 8, g := ((w / 32) % 32) * 8, b := ((w / 1024) % 32) * 8 }

/-- Modelled from the spec: `encode` (`rgb_to_gba`) reduces each 8-bit channel
to the console's 5-bit depth and combines the three fields into one packed
value via bit-shifting and OR-composition (out-of-range channel values are
masked, not rejected).  Bit 15 is never set by the composition. -/
def rgb_to_gba (c : Color) : Nat :=
  ((c.b / 8) % 32) <<< 10 ||| ((c.g / 8) % 32) <<< 5 ||| ((c.r / 8) % 32)

/-- A character descriptor from the externally supplied roster `CHARACTERS`
(crate `data`): a name and the byte offset of the character's 32-byte palette
block in the ROM. -/
structure Character where
  name : String
  palette_offset : Nat
  deriving DecidableEq

/-- An OS-level I/O error (`std::io::Error`), abstracted to a numeric code. -/
structure IOError where
  code : Nat
  deriving DecidableEq

/-- In-memory model of the backing ROM file: the byte contents and the cursor
position of the (shared) handle. -/
structure MFile where
  data : List Nat
  pos : Nat
  deriving DecidableEq

/-- Abstract interface of the file handle: `seek` to an absolute offset,
`read` up to `n` bytes (returning the bytes actually read), and `write` a
byte sequence at the cursor.  Each operation may fail with an OS-level
`IOError`, which the source propagates with `?`. -/
structure FileOps (σ : Type) where
  seek : σ → Nat → Except IOError σ
  read : σ → Nat → Except IOError (List Nat × σ)
  write : σ → List Nat → Except IOError σ

/-- Rust `Seek::seek(SeekFrom::Start(off))` on a regular file: always
succeeds, including offsets past EOF (the cursor may point beyond the end). -/
def mfileSeek (f : MFile) (off : Nat) : Except IOError MFile :=
  .ok { f with pos := off }

/-- Rust `Read::read` with an `n`-byte buffer on a regular file: returns the
next `min n remaining` bytes and advances the cursor by that amount.  At or
past EOF it returns zero bytes; a short read is NOT an error for `read`. -/
def mfileRead (f : MFile) (n : Nat) : Except IOError (List Nat × MFile) :=
  let k := min n (f.data.length - f.pos)
  .ok ((f.data.drop f.pos).take k, { f with pos := f.pos + k })

/-- Rust `Write::write` on a regular file: overwrites bytes at the cursor,
extending the file (with a zero gap) when the cursor is at or past EOF, and
advances the cursor.  A 2-byte write to a regular file is not short. -/
def mfileWrite (f : MFile) (bs : List Nat) : Except IOError MFile :=
  .ok { data := f.data.take f.pos ++ List.replicate (f.pos - f.data.length) 0
               ++ bs ++ f.data.drop (f.pos + bs.length),
        pos := f.pos + bs.length }

/-- The regular-file semantics of the std library, as one `FileOps` instance. -/
def mfileOps : FileOps MFile :=
  { seek := mfileSeek, read := mfileRead, write := mfileWrite }

/-- A file handle whose reads fail at the OS level (used to exercise the `?`
error-propagation paths, which a healthy regular file never takes). -/
def brokenOps : FileOps Unit :=
  { seek := fun _ _ => .ok ()
    read := fun _ _ => .error { code := 5 }
    write := fun _ _ => .ok () }

/-- The `PaletteManager` state: the shared ROM file handle and the palette
map `palettes : HashMap<String, Vec<i32>>`, modelled as an association list
in which `List.lookup` sees the most recent insertion (the overwrite
semantics of `HashMap::insert`).  The `GBAColorCache` field is omitted: it
memoizes the pure codec and is observationally the identity per the spec. -/
structure PaletteManager (σ : Type) where
  file : σ
  palettes : List (String × List Int)
  deriving DecidableEq

/-- Result of a manager I/O operation: success with the updated manager, a
propagated I/O error (Rust `Err` via `?`), or a panic (Rust `unwrap` of a
missing palette entry). -/
inductive Outcome (σ : Type) where
  | ok (m : PaletteManager σ)
  | ioError (e : IOError)
  | panicked
  deriving DecidableEq

/-- Source `store_palette_i32`: `self.palettes.insert(name, colors)` —
inserts or silently overwrites the named palette, with no validation. -/
def store_palette_i32 (m : PaletteManager σ) (name : String) (colors : List Int) :
    PaletteManager σ :=
  { m with palettes := (name, colors) :: m.palettes }

/-- Source `load_palette_i32`: `self.palettes.get(&name).unwrap().clone()`.
The result `none` models the `unwrap` panic on a missing key. -/
def load_palette_i32 (m : PaletteManager σ) (name : String) : Option (List Int) :=
  m.palettes.lookup name

/-- Byte-pair composition from `read_palette`: `let color: i32 = (b << 8) | a`
where `a = color_buffer[i*2]` and `b = color_buffer[i*2+1]` are bytes. -/
def composeWord (a b : Nat) : Int :=
  (((b <<< 8) ||| a : Nat) : Int)

/-- Source `read_palette`: seek the shared handle to `character.palette_offset`
(propagating failure), `read` into a zero-initialised 32-byte buffer
(propagating failure; the count returned by `read` is IGNORED, so a short
read leaves trailing zeros in the buffer), compose the 16 words as
`(b << 8) | a` from consecutive byte pairs, and store them under the
character's name. -/
def read_palette (ops : FileOps σ) (m : PaletteManager σ) (c : Character) :
    Outcome σ :=
  match ops.seek m.file c.palette_offset with
  | .error e => .ioError e
  | .ok f1 =>
    match ops.read f1 32 with
    | .error e => .ioError e
    | .ok (bytes, f2) =>
      let color_buffer := (bytes ++ List.replicate 32 0).take 32
      let colors := (List.range 16).map fun i =>
        composeWord (color_buffer.getD (i * 2) 0) (color_buffer.getD (i * 2 + 1) 0)
      .ok (store_palette_i32 { m with file := f2 } c.name colors)

/-- Source `read_palettes`: `for character in CHARACTERS.iter() {
self.read_palette(character)? }` — the externally supplied roster
`CHARACTERS` (crate `data`, not under `src/`) is passed as the list
argument; the first failure is propagated immediately by `?`. -/
def read_palettes (ops : FileOps σ) (m : PaletteManager σ) :
    List Character → Outcome σ
  | [] => .ok m
  | c :: rest =>
    match read_palette ops m c with
    | .ok m' => read_palettes ops m' rest
    | .ioError e => .ioError e
    | .panicked => .panicked

/-- Source `write_palette` loop body, low byte: `let a = i & 0x00FF` on `i32`.
In two's complement this is the least-significant byte of `i`, i.e.
`i mod 2^8` taken as a nonnegative value. -/
def lowByte (w : Int) : Nat :=
  (w % 256).toNat

/-- Source `write_palette` loop body, high byte: `let b = (i & 0xFF00) >> 8`
on `i32`.  `i & 0xFF00` keeps bits 8-15 of the two's-complement
representation (a nonnegative value), and the shift divides it by `2^8`:
`(i mod 2^16) div 2^8`. -/
def highByte (w : Int) : Nat :=
  (w % 65536).toNat / 256

/-- The flat byte sequence the write loop emits: for each stored word, its
low byte first, then its high byte (`write(&[a as u8, b as u8])`). -/
def wordBytes : List Int → List Nat
  | [] => []
  | w :: ws => lowByte w :: highByte w :: wordBytes ws

/-- The `for` loop of `write_palette`: one 2-byte `write` per stored word,
low byte first, propagating any write failure with `?`. -/
def writeLoop (ops : FileOps σ) (f : σ) : List Int → Except IOError σ
  | [] => .ok f
  | w :: ws =>
    match ops.write f [lowByte w, highByte w] with
    | .error e => .error e
    | .ok f' => writeLoop ops f' ws

/-- Source `write_palette`: seek the shared handle to the descriptor's offset
(propagating failure), then `load_palette_i32` of the character's name
(panics when missing), then the 2-bytes-per-word write loop. -/
def write_palette (ops : FileOps σ) (m : PaletteManager σ) (c : Character) :
    Outcome σ :=
  match ops.seek m.file c.palette_offset with
  | .error e => .ioError e
  | .ok f1 =>
    match load_palette_i32 m c.name with
    | none => .panicked
    | some ws =>
      match writeLoop ops f1 ws with
      | .error e => .ioError e
      | .ok f2 => .ok { m with file := f2 }

/-- Composition of `write_palette` followed by `read_palette` of the same
descriptor (the round-trip scenario of the spec). -/
def write_then_read (ops : FileOps σ) (m : PaletteManager σ) (c : Character) :
    Outcome σ :=
  match write_palette ops m c with
  | .ok m1 => read_palette ops m1 c
  | r => r

/-- The 16 packed words that an in-bounds 32-byte block read at `off`
produces: word `i` is `(secondByte << 8) | firstByte` of byte pair `i`. -/
def romWords (data : List Nat) (off : Nat) : List Int :=
  (List.range 16).map fun i =>
    composeWord (data.getD (off + i * 2) 0) (data.getD (off + i * 2 + 1) 0)

/-- Mutex events on the shared `Arc<Mutex<File>>` handle.  Each Rust
statement of the form `self.file.lock().unwrap().op(...)` acquires the mutex,
performs the operation, and drops the guard — a temporary — at the end of
that same statement. -/
inductive LockEvent where
  | lock
  | unlock
  | seekTo (off : Nat)
  | readBytes (n : Nat)
  | writeBytes (n : Nat)
  deriving DecidableEq

/-- Mutex event trace of `read_palette`: the seek statement and the read
statement each acquire and release the lock separately. -/
def read_palette_trace (c : Character) : List LockEvent :=
  [.lock, .seekTo c.palette_offset, .unlock, .lock, .readBytes 32, .unlock]

/-- Mutex event trace of the `write_palette` loop over `n` stored words: the
2-byte write statement in the loop body acquires and releases the lock anew
on every iteration. -/
def writeLoopTrace : Nat → List LockEvent
  | 0 => []
  | n + 1 => LockEvent.lock :: LockEvent.writeBytes 2 :: LockEvent.unlock :: writeLoopTrace n

/-- Mutex event trace of `write_palette` over `n` stored words: one
lock/unlock pair around the seek, then one around each 2-byte write. -/
def write_palette_trace (c : Character) (n : Nat) : List LockEvent :=
  LockEvent.lock :: LockEvent.seekTo c.palette_offset :: LockEvent.unlock :: writeLoopTrace n

/-- The property claimed by the spec, as a scan over a trace: between every
seek and the next transfer (read or write) no `unlock` occurs, so no
concurrent holder of the handle can interpose a seek there.  The flag records
whether the scan is after a seek and still awaiting its transfer. -/
def unlockFreeSeekToTransfer (between : Bool) : List LockEvent → Bool
  | [] => true
  | .seekTo _ :: r => unlockFreeSeekToTransfer true r
  | .readBytes _ :: r => unlockFreeSeekToTransfer false r
  | .writeBytes _ :: r => unlockFreeSeekToTransfer false r
  | .lock :: r => unlockFreeSeekToTransfer between r
  | .unlock :: r => !between && unlockFreeSeekToTransfer between r

/-- The lock discipline the code actually has: the trace is a sequence of
lock — single operation — unlock triples (each individual seek, read, or
write statement is guarded by its own acquisition of the mutex). -/
def perStatementLocked : List LockEvent → Bool
  | [] => true
  | .lock :: .seekTo _ :: .unlock :: r => perStatementLocked r
  | .lock :: .readBytes _ :: .unlock :: r => perStatementLocked r
  | .lock :: .writeBytes _ :: .unlock :: r => perStatementLocked r
  | _ => false

/-- The concrete ROM block of the spec's scenario: 16 little-endian byte
pairs `01 00 02 00 ... 10 00`. -/
def demoRom : List Nat :=
  [1, 0, 2, 0, 3, 0, 4, 0, 5, 0, 6, 0, 7, 0, 8, 0,
   9, 0, 10, 0, 11, 0, 12, 0, 13, 0, 14, 0, 15, 0, 16, 0]

/-- A descriptor whose 32-byte palette block starts at offset 0. -/
def sonicC : Character :=
  { name := "Sonic", palette_offset := 0 }

/-- A descriptor whose palette offset (40) lies beyond the end of the
32-byte demo ROM. -/
def shadowC : Character :=
  { name := "Shadow", palette_offset := 40 }

/-- A second in-bounds descriptor, for roster-order statements. -/
def amyC : Character :=
  { name := "Amy", palette_offset := 4 }

/-- A manager over the demo ROM with an empty palette store. -/
def demoM : PaletteManager MFile :=
  { file := { data := demoRom, pos := 0 }, palettes := [] }

/-- A manager over an empty (zero-length) ROM file. -/
def emptyM : PaletteManager MFile :=
  { file := { data := [], pos := 0 }, palettes := [] }

/-- A manager over the always-failing file handle. -/
def unitM : PaletteManager Unit :=
  { file := (), palettes := [] }

/-- A stored palette whose first word does not fit in 16 bits. -/
def badPal : List Int :=
  65536 :: List.replicate 15 0

/-- A manager holding `badPal` for `sonicC` over a 32-byte ROM of zeros. -/
def badM : PaletteManager MFile :=
  { file := { data := List.replicate 32 0, pos := 0 }, palettes := [(sonicC.name, badPal)] }

/-- The manager state produced by writing `badPal` and reading it back: the
read-back palette is all zeros, not `badPal`. -/
def badResultM : PaletteManager MFile :=
  { file := { data := wordBytes badPal, pos := 32 },
    palettes := [(sonicC.name, List.replicate 16 0), (sonicC.name, badPal)] }

/-- A stored palette of 16 words that all fit in 16 bits. -/
def goodPal : List Int :=
  [1, 2, 3, 4, 5, 6, 7, 8, 9, 10, 11, 12, 13, 14, 15, 16]

/-- A manager holding `goodPal` for `sonicC` over a 32-byte ROM of zeros. -/
def goodM : PaletteManager MFile :=
  { file := { data := List.replicate 32 0, pos := 0 }, palettes := [(sonicC.name, goodPal)] }

/-- The manager state that `read_palettes` produces over the roster
`[sonicC, shadowC]` on the demo ROM: the past-EOF descriptor gets a palette
of 16 zero words and the run ends at cursor 40 with no error. -/
def pastEofM : PaletteManager MFile :=
  { file := { data := demoRom, pos := 40 },
    palettes := [(shadowC.name, List.replicate 16 0), (sonicC.name, romWords demoRom 0)] }

/-- The manager state after `read_palette` of `sonicC` on the demo ROM. -/
def sonicReadM : PaletteManager MFile :=
  { file := { data := demoRom, pos := 32 },
    palettes := [(sonicC.name, romWords demoRom 0)] }

/-! Helper lemmas. -/

theorem or_eq_add_of_dvd_of_lt (x b i : Nat) (hx : 2 ^ i ∣ x) (hb : b < 2 ^ i) :
    x ||| b = x + b := by
  obtain ⟨a, rfl⟩ := hx
  exact (Nat.mul_add_lt_is_or hb a).symm

theorem shiftLeft_or_eq_add (a b : Nat) (h : b < 256) :
    (a <<< 8) ||| b = 256 * a + b := by
  have := or_eq_add_of_dvd_of_lt (a <<< 8) b 8 ⟨a, by rw [Nat.shiftLeft_eq]; ring⟩ (by omega)
  rw [this, Nat.shiftLeft_eq]
  ring

theorem tripleCompose (a b c : Nat) (hb : b < 32) (hc : c < 32) :
    a <<< 10 ||| b <<< 5 ||| c = 1024 * a + 32 * b + c := by
  have e1 : a <<< 10 = 1024 * a := by rw [Nat.shiftLeft_eq]; ring_nf
  have e2 : b <<< 5 = 32 * b := by rw [Nat.shiftLeft_eq]; ring_nf
  rw [e1, e2]
  rw [or_eq_add_of_dvd_of_lt (1024 * a) (32 * b) 10 ⟨a, by ring_nf⟩ (by omega)]
  rw [or_eq_add_of_dvd_of_lt (1024 * a + 32 * b) c 5 ⟨32 * a + b, by ring_nf⟩ (by omega)]

theorem composeWord_eq_add (a b : Nat) (h : a < 256) :
    composeWord a b = ((256 * b + a : Nat) : Int) := by
  unfold composeWord
  rw [shiftLeft_or_eq_add b a h]

theorem lowByte_lt (w : Int) : lowByte w < 256 := by
  unfold lowByte
  omega

theorem highByte_lt (w : Int) : highByte w < 256 := by
  unfold highByte
  omega

theorem composeWord_bytes (w : Int) (h0 : 0 ≤ w) (h1 : w < 65536) :
    composeWord (lowByte w) (highByte w) = w := by
  rw [composeWord_eq_add _ _ (lowByte_lt w)]
  unfold lowByte highByte
  omega

theorem lowByte_emod (v : Int) : lowByte (v % 65536) = lowByte v := by
  unfold lowByte
  omega

theorem highByte_emod (v : Int) : highByte (v % 65536) = highByte v := by
  unfold highByte
  omega

theorem getD_drop_take {α : Type} (l : List α) (off n i : Nat) (d : α) (hi : i < n) :
    ((l.drop off).take n).getD i d = l.getD (off + i) d := by
  rw [List.getD_eq_getElem?_getD, List.getD_eq_getElem?_getD,
    List.getElem?_take_of_lt hi, List.getElem?_drop]

theorem wordBytes_length (ws : List Int) : (wordBytes ws).length = 2 * ws.length := by
  induction ws with
  | nil => rfl
  | cons w ws ih =>
    simp only [wordBytes, List.length_cons, ih]
    omega

theorem wordBytes_getD (ws : List Int) (d : Nat) :
    ∀ i, i < ws.length →
      (wordBytes ws).getD (i * 2) d = lowByte (ws.getD i 0)
      ∧ (wordBytes ws).getD (i * 2 + 1) d = highByte (ws.getD i 0) := by
  induction ws with
  | nil => intro i hi; exact absurd hi (by simp)
  | cons w ws ih =>
    intro i hi
    cases i with
    | zero => exact ⟨rfl, rfl⟩
    | succ i =>
      have e1 : (i + 1) * 2 = (i * 2 + 1) + 1 := by omega
      rw [e1]
      simp only [wordBytes, List.getD_cons_succ]
      exact ih i (by simpa using hi)

theorem writeLoop_mfile_ok (ws : List Int) :
    ∀ f : MFile, f.pos + 2 * ws.length ≤ f.data.length →
      writeLoop mfileOps f ws =
        Except.ok { data := (f.data.take f.pos ++ wordBytes ws)
                      ++ f.data.drop (f.pos + 2 * ws.length),
                    pos := f.pos + 2 * ws.length } := by
  induction ws with
  | nil =>
    intro f _
    cases f with
    | mk d p => simp [writeLoop, wordBytes]
  | cons w ws ih =>
    intro f h
    obtain ⟨d, p⟩ := f
    simp only [List.length_cons] at h
    have hp2 : p + 2 ≤ d.length := by omega
    have hgap : p - d.length = 0 := by omega
    have hLlen : ((d.take p ++ [lowByte w, highByte w]) : List Nat).length = p + 2 := by
      simp
      omega
    have hw : mfileOps.write ⟨d, p⟩ [lowByte w, highByte w]
        = Except.ok ⟨(d.take p ++ [lowByte w, highByte w]) ++ d.drop (p + 2), p + 2⟩ := by
      simp [mfileOps, mfileWrite, hgap]
    have hlen' : (p + 2) + 2 * ws.length
        ≤ (((d.take p ++ [lowByte w, highByte w]) ++ d.drop (p + 2)) : List Nat).length := by
      simp only [List.length_append, hLlen, List.length_drop]
      omega
    rw [writeLoop, hw]
    show writeLoop mfileOps ⟨(d.take p ++ [lowByte w, highByte w]) ++ d.drop (p + 2), p + 2⟩ ws
        = _
    rw [ih ⟨(d.take p ++ [lowByte w, highByte w]) ++ d.drop (p + 2), p + 2⟩ (by simpa using hlen')]
    simp only [Except.ok.injEq, MFile.mk.injEq]
    constructor
    · rw [List.take_left' hLlen]
      rw [← List.drop_drop, List.drop_left' hLlen, List.drop_drop]
      simp only [List.length_cons]
      rw [show p + 2 * (ws.length + 1) = (p + 2) + 2 * ws.length from by omega]
      simp [wordBytes, List.append_assoc]
    · simp only [List.length_cons]
      omega

theorem read_palette_mfile_ok (m : PaletteManager MFile) (c : Character)
    (h : c.palette_offset + 32 ≤ m.file.data.length) :
    read_palette mfileOps m c =
      Outcome.ok { file := { data := m.file.data, pos := c.palette_offset + 32 },
                   palettes := (c.name, romWords m.file.data c.palette_offset)
                      :: m.palettes } := by
  obtain ⟨⟨d, p⟩, ps⟩ := m
  simp only at h
  have hk : min 32 (d.length - c.palette_offset) = 32 := by omega
  rw [read_palette]
  simp only [mfileOps, mfileSeek, mfileRead, hk]
  have hbl : ((d.drop c.palette_offset).take 32).length = 32 := by
    simp
    omega
  have hbuf : (((d.drop c.palette_offset).take 32) ++ List.replicate 32 0).take 32
      = (d.drop c.palette_offset).take 32 := List.take_left' hbl
  rw [hbuf]
  have hwords : (List.range 16).map (fun i =>
        composeWord (((d.drop c.palette_offset).take 32).getD (i * 2) 0)
          (((d.drop c.palette_offset).take 32).getD (i * 2 + 1) 0))
      = romWords d c.palette_offset := by
    unfold romWords
    apply List.map_congr_left
    intro i hi
    have hi16 : i < 16 := List.mem_range.mp hi
    rw [getD_drop_take d c.palette_offset 32 (i * 2) 0 (by omega),
      getD_drop_take d c.palette_offset 32 (i * 2 + 1) 0 (by omega)]
    rw [show c.palette_offset + (i * 2 + 1) = c.palette_offset + i * 2 + 1 from by omega]
  rw [hwords]
  rfl

theorem write_palette_mfile_ok (m : PaletteManager MFile) (c : Character) (ws : List Int)
    (hst : load_palette_i32 m c.name = some ws) (hlen : ws.length = 16)
    (hb : c.palette_offset + 32 ≤ m.file.data.length) :
    write_palette mfileOps m c =
      Outcome.ok { file := { data := (m.file.data.take c.palette_offset ++ wordBytes ws)
                               ++ m.file.data.drop (c.palette_offset + 32),
                             pos := c.palette_offset + 32 },
                   palettes := m.palettes } := by
  obtain ⟨⟨d, p⟩, ps⟩ := m
  simp only at hb
  have hs : mfileOps.seek ⟨d, p⟩ c.palette_offset = Except.ok ⟨d, c.palette_offset⟩ := rfl
  have hfin := writeLoop_mfile_ok ws ⟨d, c.palette_offset⟩ (by simp only; omega)
  rw [hlen] at hfin
  rw [write_palette]
  simp only [hs, hst]
  rw [show (2 : Nat) * 16 = 32 from rfl] at hfin
  rw [hfin]

theorem read_palettes_append_ok {σ : Type} (ops : FileOps σ) (cs₁ : List Character) :
    ∀ (m m₁ : PaletteManager σ), read_palettes ops m cs₁ = Outcome.ok m₁ →
      ∀ cs₂ : List Character,
        read_palettes ops m (cs₁ ++ cs₂) = read_palettes ops m₁ cs₂ := by
  induction cs₁ with
  | nil =>
    intro m m₁ h cs₂
    have h' : (Outcome.ok m : Outcome σ) = Outcome.ok m₁ := h
    cases h'
    rfl
  | cons c cs ih =>
    intro m m₁ h cs₂
    rw [read_palettes] at h
    rw [List.cons_append, read_palettes]
    cases hr : read_palette ops m c with
    | ok m' =>
      rw [hr] at h
      exact ih m' m₁ h cs₂
    | ioError e =>
      rw [hr] at h
      exact absurd h (by simp)
    | panicked =>
      rw [hr] at h
      exact absurd h (by simp)

theorem romWords_of_wordBytes (pre suf : List Nat) (ws : List Int) (hlen : ws.length = 16)
    (hrange : ∀ w ∈ ws, 0 ≤ w ∧ w < 65536) :
    romWords (pre ++ (wordBytes ws ++ suf)) pre.length = ws := by
  unfold romWords
  apply List.ext_getElem (by simp [hlen])
  intro i h1 h2
  simp only [List.getElem_map, List.getElem_range, List.length_map, List.length_range] at h1 ⊢
  have hi16 : i < 16 := by simpa using h1
  have hgd : ∀ j, j < 32 →
      (pre ++ (wordBytes ws ++ suf)).getD (pre.length + j) 0 = (wordBytes ws).getD j 0 := by
    intro j hj
    have hwb : j < (wordBytes ws).length := by rw [wordBytes_length, hlen]; omega
    rw [List.getD_eq_getElem?_getD, List.getElem?_append_right (by omega),
      List.getElem?_append_left (by omega : pre.length + j - pre.length < (wordBytes ws).length)]
    rw [List.getD_eq_getElem?_getD]
    congr 1
    congr 1
    omega
  rw [hgd (i * 2) (by omega)]
  rw [show pre.length + i * 2 + 1 = pre.length + (i * 2 + 1) from by omega]
  rw [hgd (i * 2 + 1) (by omega)]
  have hi : i < ws.length := by omega
  obtain ⟨hl, hh⟩ := wordBytes_getD ws 0 i hi
  rw [hl, hh]
  have hw := hrange (ws.getD i 0) (by
    rw [List.getD_eq_getElem ws 0 hi]
    exact List.getElem_mem hi)
  rw [composeWord_bytes _ hw.1 hw.2]
  exact List.getD_eq_getElem ws 0 hi

theorem wordBytes_map_emod (ws : List Int) :
    wordBytes (ws.map fun v => v % 65536) = wordBytes ws := by
  induction ws with
  | nil => rfl
  | cons w ws ih => simp only [List.map_cons, wordBytes, lowByte_emod, highByte_emod, ih]

theorem writeLoop_map_emod {σ : Type} (ops : FileOps σ) (ws : List Int) :
    ∀ f : σ, writeLoop ops f (ws.map fun v => v % 65536) = writeLoop ops f ws := by
  induction ws with
  | nil => intro f; rfl
  | cons w ws ih =>
    intro f
    simp only [List.map_cons, writeLoop, lowByte_emod, highByte_emod]
    cases ops.write f [lowByte w, highByte w] with
    | error e => rfl
    | ok f' => exact ih f'

theorem writeLoopTrace_locked (n : Nat) : perStatementLocked (writeLoopTrace n) = true := by
  induction n with
  | zero => rfl
  | succ n ih => simpa [writeLoopTrace, perStatementLocked] using ih

theorem getD_replicate {α : Type} (a : α) : ∀ n j, (List.replicate n a).getD j a = a := by
  intro n
  induction n with
  | zero => intro j; cases j <;> rfl
  | succ n ih =>
    intro j
    cases j with
    | zero => rfl
    | succ j => simp only [List.replicate, List.getD_cons_succ, ih j]

theorem read_palette_mfile_past_eof (m : PaletteManager MFile) (c : Character)
    (h : m.file.data.length ≤ c.palette_offset) :
    read_palette mfileOps m c =
      Outcome.ok { file := { data := m.file.data, pos := c.palette_offset },
                   palettes := (c.name, List.replicate 16 0) :: m.palettes } := by
  obtain ⟨⟨d, p⟩, ps⟩ := m
  simp only at h
  have hk : min 32 (d.length - c.palette_offset) = 0 := by omega
  rw [read_palette]
  simp only [mfileOps, mfileSeek, mfileRead, hk]
  have hbuf : ((d.drop c.palette_offset).take 0 ++ List.replicate 32 0).take 32
      = List.replicate 32 0 := by
    simp
  rw [hbuf]
  have hwords : (List.range 16).map (fun i =>
        composeWord ((List.replicate 32 (0 : Nat)).getD (i * 2) 0)
          ((List.replicate 32 (0 : Nat)).getD (i * 2 + 1) 0))
      = List.replicate 16 (0 : Int) := by
    rw [show (List.replicate 16 (0 : Int)) = (List.range 16).map (fun _ => (0 : Int)) from by
      simp [List.map_const]]
    apply List.map_congr_left
    intro i _
    rw [getD_replicate, getD_replicate]
    rfl
  rw [hwords]
  simp only [store_palette_i32]
  rfl

/-! Claim theorems. -/

/-- C1, counterexample: the Packed → RGB → Packed round trip is NOT the
identity on all 16-bit words — at `w = 0x8000` (reserved bit 15 set) decoding
ignores bit 15 and re-encoding composes only the three 5-bit fields, so the
round trip returns 0, not `0x8000`. -/
theorem encode_decode_not_identity :
    rgb_to_gba (gba_to_rgb 32768) ≠ 32768 ∧ rgb_to_gba (gba_to_rgb 32768) = 0 := by
  decide

/-- C1, amended: for every word `w`, encoding the RGB color obtained by
decoding `w` yields `w` with the reserved bit cleared, `w mod 2^15`; hence
the round trip is the identity exactly on the words whose reserved bit 15 is
clear. -/
theorem encode_decode_eq_mod_two_pow_15 (w : Nat) :
    rgb_to_gba (gba_to_rgb w) = w % 32768 :=
  calc rgb_to_gba (gba_to_rgb w)
      = 1024 * ((((w / 1024) % 32) * 8 / 8) % 32) + 32 * ((((w / 32) % 32) * 8 / 8) % 32)
        + (((w % 32) * 8 / 8) % 32) := tripleCompose _ _ _ (by omega) (by omega)
    _ = w % 32768 := by omega

/-- C2: for a descriptor whose 32-byte block lies inside the ROM,
`read_palette` seeks the handle to the descriptor's offset, reads 32 bytes
(the cursor ends at `offset + 32`, the data is unchanged), composes each of
the 16 two-byte pairs as `(secondByte << 8) | firstByte`, and stores the
16-word sequence in the palette map under the descriptor's name. -/
theorem read_palette_spec (m : PaletteManager MFile) (c : Character)
    (h : c.palette_offset + 32 ≤ m.file.data.length) :
    read_palette mfileOps m c =
      Outcome.ok { file := { data := m.file.data, pos := c.palette_offset + 32 },
                   palettes := (c.name, romWords m.file.data c.palette_offset)
                      :: m.palettes } :=
  read_palette_mfile_ok m c h

/-- Witness for C2 on the spec's concrete 32-byte ROM. -/
theorem read_palette_spec_witness :
    sonicC.palette_offset + 32 ≤ demoM.file.data.length
    ∧ read_palette mfileOps demoM sonicC =
        Outcome.ok { file := { data := demoM.file.data, pos := sonicC.palette_offset + 32 },
                     palettes := (sonicC.name, romWords demoM.file.data sonicC.palette_offset)
                        :: demoM.palettes } :=
  ⟨by decide, read_palette_spec demoM sonicC (by decide)⟩

/-- C3: for a descriptor whose palette is stored (16 words) and whose block
lies inside the ROM, `write_palette` seeks to the descriptor's offset and
writes each stored word as two bytes, low-order byte first then high-order
byte — exactly 32 bytes replacing the block `offset .. offset+32`, leaving
the rest of the ROM and the palette store unchanged. -/
theorem write_palette_spec (m : PaletteManager MFile) (c : Character) (ws : List Int)
    (hst : load_palette_i32 m c.name = some ws) (hlen : ws.length = 16)
    (hb : c.palette_offset + 32 ≤ m.file.data.length) :
    (wordBytes ws).length = 32
    ∧ write_palette mfileOps m c =
        Outcome.ok { file := { data := (m.file.data.take c.palette_offset ++ wordBytes ws)
                                 ++ m.file.data.drop (c.palette_offset + 32),
                               pos := c.palette_offset + 32 },
                     palettes := m.palettes } :=
  ⟨by rw [wordBytes_length, hlen], write_palette_mfile_ok m c ws hst hlen hb⟩

/-- Witness for C3 on a concrete stored 16-word palette. -/
theorem write_palette_spec_witness :
    load_palette_i32 goodM sonicC.name = some goodPal
    ∧ goodPal.length = 16
    ∧ sonicC.palette_offset + 32 ≤ goodM.file.data.length
    ∧ ((wordBytes goodPal).length = 32
      ∧ write_palette mfileOps goodM sonicC =
          Outcome.ok { file := { data := (goodM.file.data.take sonicC.palette_offset
                                    ++ wordBytes goodPal)
                                   ++ goodM.file.data.drop (sonicC.palette_offset + 32),
                                 pos := sonicC.palette_offset + 32 },
                       palettes := goodM.palettes }) :=
  ⟨by decide, by decide, by decide,
    write_palette_spec goodM sonicC goodPal (by decide) (by decide) (by decide)⟩

/-- C4, counterexample: the write-then-read round trip does NOT reproduce
every stored palette — the store accepts unvalidated `i32` words, and for
the stored palette `[65536, 0, ..., 0]` the write masks each word to 16 bits,
so reading back yields all zeros, not the original sequence. -/
theorem write_then_read_not_identity :
    write_then_read mfileOps badM sonicC = Outcome.ok badResultM
    ∧ load_palette_i32 badResultM sonicC.name ≠ some badPal := by
  decide

/-- C4, amended: for every stored 16-entry palette whose words lie in the
16-bit range `[0, 65536)`, writing it at an in-bounds descriptor offset with
`write_palette` and then reading the same descriptor back with `read_palette`
reproduces the original 16-word sequence exactly in the store. -/
theorem write_then_read_roundtrip (m : PaletteManager MFile) (c : Character) (ws : List Int)
    (hst : load_palette_i32 m c.name = some ws) (hlen : ws.length = 16)
    (hrange : ∀ w ∈ ws, 0 ≤ w ∧ w < 65536)
    (hb : c.palette_offset + 32 ≤ m.file.data.length) :
    ∃ m2, write_then_read mfileOps m c = Outcome.ok m2
      ∧ load_palette_i32 m2 c.name = some ws := by
  have hw := write_palette_mfile_ok m c ws hst hlen hb
  set D := (m.file.data.take c.palette_offset ++ wordBytes ws)
    ++ m.file.data.drop (c.palette_offset + 32) with hD
  have hb1 : c.palette_offset + 32 ≤ D.length := by
    rw [hD]
    simp only [List.length_append, List.length_take, List.length_drop,
      wordBytes_length, hlen]
    omega
  have hr := read_palette_mfile_ok ⟨⟨D, c.palette_offset + 32⟩, m.palettes⟩ c hb1
  have hwt : write_then_read mfileOps m c
      = read_palette mfileOps ⟨⟨D, c.palette_offset + 32⟩, m.palettes⟩ c := by
    rw [write_then_read, hw]
  refine ⟨_, hwt.trans hr, ?_⟩
  have hplen : (m.file.data.take c.palette_offset).length = c.palette_offset := by
    simp
    omega
  have hrw := romWords_of_wordBytes (m.file.data.take c.palette_offset)
    (m.file.data.drop (c.palette_offset + 32)) ws hlen hrange
  rw [hplen] at hrw
  rw [← List.append_assoc] at hrw
  simp only [load_palette_i32, List.lookup_cons_self, Option.some.injEq]
  rw [hD]
  exact hrw

/-- Witness for C4 (amended) on a concrete 16-bit-range palette. -/
theorem write_then_read_roundtrip_witness :
    load_palette_i32 goodM sonicC.name = some goodPal
    ∧ goodPal.length = 16
    ∧ (∀ w ∈ goodPal, 0 ≤ w ∧ w < 65536)
    ∧ sonicC.palette_offset + 32 ≤ goodM.file.data.length
    ∧ ∃ m2, write_then_read mfileOps goodM sonicC = Outcome.ok m2
        ∧ load_palette_i32 m2 sonicC.name = some goodPal :=
  ⟨by decide, by decide, by decide, by decide,
    write_then_read_roundtrip goodM sonicC goodPal (by decide) (by decide) (by decide)
      (by decide)⟩

/-- C5: looking up a name with no stored palette makes `load_palette_i32`
panic (modelled as `none`, the `unwrap` of `HashMap::get`'s `None`), and
`write_palette` on a descriptor with that name hits the same panic — neither
returns a value or a recoverable error. -/
theorem load_missing_panics (m : PaletteManager MFile) (name : String) (off : Nat)
    (h : m.palettes.lookup name = none) :
    load_palette_i32 m name = none
    ∧ write_palette mfileOps m { name := name, palette_offset := off }
        = Outcome.panicked := by
  refine ⟨h, ?_⟩
  simp [write_palette, mfileOps, mfileSeek, load_palette_i32, h]

/-- Witness for C5 on an empty palette store. -/
theorem load_missing_panics_witness :
    emptyM.palettes.lookup amyC.name = none
    ∧ (load_palette_i32 emptyM amyC.name = none
      ∧ write_palette mfileOps emptyM { name := amyC.name, palette_offset := amyC.palette_offset }
          = Outcome.panicked) :=
  ⟨by decide, load_missing_panics emptyM amyC.name amyC.palette_offset (by decide)⟩

/-- C6: `read_palettes` over the empty roster performs no reads and succeeds
with the manager unchanged; over `cs₁ ++ cs₂'` it first processes `cs₁` in
order (threading the manager state); and when the next descriptor `c` fails
with an I/O error after a successful prefix, that first error is returned
as a whole — independent of the remaining roster `cs₂`, which is never
touched. -/
theorem read_palettes_roster (σ : Type) (ops : FileOps σ) (m m₁ : PaletteManager σ)
    (cs₁ cs₂ cs₂' : List Character) (c : Character) (e : IOError)
    (h1 : read_palettes ops m cs₁ = Outcome.ok m₁)
    (h2 : read_palette ops m₁ c = Outcome.ioError e) :
    read_palettes ops m [] = Outcome.ok m
    ∧ read_palettes ops m (cs₁ ++ cs₂') = read_palettes ops m₁ cs₂'
    ∧ read_palettes ops m (cs₁ ++ c :: cs₂) = Outcome.ioError e := by
  refine ⟨rfl, read_palettes_append_ok ops cs₁ m m₁ h1 cs₂', ?_⟩
  rw [read_palettes_append_ok ops cs₁ m m₁ h1 (c :: cs₂), read_palettes, h2]

/-- Witness for C6 with a failing file handle. -/
theorem read_palettes_roster_witness :
    read_palettes brokenOps unitM [] = Outcome.ok unitM
    ∧ read_palettes brokenOps unitM ([] ++ [amyC]) = read_palettes brokenOps unitM [amyC]
    ∧ read_palettes brokenOps unitM ([] ++ sonicC :: [amyC])
        = Outcome.ioError { code := 5 } :=
  read_palettes_roster Unit brokenOps unitM unitM [] [amyC] [amyC] sonicC { code := 5 }
    rfl rfl

/-- C7 divergence evidence: over a roster whose second descriptor points
beyond the end of a 32-byte ROM (offset 40), `read_palettes` does NOT fail —
`seek` past EOF succeeds and the unchecked short `read` returns 0 bytes, so
a palette of 16 zero words is stored for that descriptor and the run
succeeds; the earlier descriptor's palette is intact in the store. -/
theorem read_palettes_past_eof_succeeds :
    read_palette mfileOps demoM sonicC = Outcome.ok sonicReadM
    ∧ read_palette mfileOps sonicReadM shadowC = Outcome.ok pastEofM
    ∧ read_palettes mfileOps demoM [sonicC, shadowC] = Outcome.ok pastEofM
    ∧ load_palette_i32 pastEofM sonicC.name = some (romWords demoRom 0) := by
  have h1 : read_palette mfileOps demoM sonicC = Outcome.ok sonicReadM :=
    (read_palette_mfile_ok demoM sonicC (by decide)).trans (by rfl)
  have h2 : read_palette mfileOps sonicReadM shadowC = Outcome.ok pastEofM :=
    (read_palette_mfile_past_eof sonicReadM shadowC (by decide)).trans (by rfl)
  refine ⟨h1, h2, ?_, ?_⟩
  · rw [read_palettes, h1]
    show read_palettes mfileOps sonicReadM [shadowC] = Outcome.ok pastEofM
    rw [read_palettes, h2]
    rfl
  · have hne : (sonicC.name == shadowC.name) = false := by decide
    have heq : (sonicC.name == sonicC.name) = true := by decide
    simp [load_palette_i32, pastEofM, List.lookup, hne, heq]

/-- C8 divergence evidence: on a zero-length ROM the `read` returns 0 bytes
and `read_palette` does NOT return an error — it stores the palette composed
from the untouched zero-initialised buffer (16 zero words).  OS-level seek
or read failures, by contrast, ARE propagated as I/O errors (second
conjunct, with the failing handle). -/
theorem read_palette_short_read_succeeds :
    read_palette mfileOps emptyM sonicC
      = Outcome.ok { file := { data := [], pos := 0 },
                     palettes := [(sonicC.name, List.replicate 16 0)] }
    ∧ read_palette brokenOps unitM sonicC = Outcome.ioError { code := 5 } := by
  decide

/-- C9, counterexample: the mutex is NOT held continuously across the
seek-then-transfer pair — in the traces of both `read_palette` and
`write_palette` an `unlock` occurs between the seek and the following
transfer, so a concurrent holder of the handle could interpose a seek
there. -/
theorem lock_released_between_seek_and_transfer :
    unlockFreeSeekToTransfer false (read_palette_trace sonicC) = false
    ∧ unlockFreeSeekToTransfer false (write_palette_trace sonicC 16) = false := by
  decide

/-- C9, amended: every ROM access holds the lock only per statement — each
individual seek, each 32-byte read, and each 2-byte write is guarded by its
own lock/unlock pair, and the lock is released between an operation's seek
and its subsequent transfer. -/
theorem per_statement_locking (c : Character) (n : Nat) :
    perStatementLocked (read_palette_trace c) = true
    ∧ perStatementLocked (write_palette_trace c n) = true
    ∧ unlockFreeSeekToTransfer false (read_palette_trace c) = false := by
  refine ⟨rfl, ?_, rfl⟩
  simpa [write_palette_trace, perStatementLocked] using writeLoopTrace_locked n

/-- C10: `write_palette` emits, for every stored word `w` (any `i32`), the
two bytes `w & 0xFF` and `(w & 0xFF00) >> 8` — the low 16 bits of `w` as
`(w mod 2^16) mod 2^8` and `(w mod 2^16) div 2^8`, both valid bytes — so the
write loop's output is invariant under replacing each stored word by its
low 16 bits: all bits above bit 15, including the sign, are discarded. -/
theorem write_discards_high_bits (w : Int) (f : MFile) (ws : List Int) :
    lowByte w = (w % 65536).toNat % 256
    ∧ highByte w = (w % 65536).toNat / 256
    ∧ lowByte w < 256 ∧ highByte w < 256
    ∧ wordBytes ws = wordBytes (ws.map fun v => v % 65536)
    ∧ writeLoop mfileOps f ws = writeLoop mfileOps f (ws.map fun v => v % 65536) :=
  ⟨by unfold lowByte; omega, rfl, lowByte_lt w, highByte_lt w,
    (wordBytes_map_emod ws).symm, (writeLoop_map_emod mfileOps ws f).symm⟩

end Sbrx
